import Mathlib

/-!
Verification of the client-side Session Manager of the music-assignment-tracker
repository (src/public/index.js and src/public/dash-teacher.js).

The development shallowly embeds:
* the browser JSON runtime (`JSON.stringify` / `JSON.parse`) used by the token
  persistence helpers, as executable functions on an inductive JSON value type
  (numbers are modelled as integers; of the JSON string escapes the model
  implements the quote, backslash, newline, carriage-return and tab escapes,
  and passes other characters through verbatim; insignificant whitespace is
  not modelled -- none of the code under verification produces or relies on it);
* the js-cookie store (`Cookies.set` / `Cookies.get`) as an association list;
* the in-memory `APP` session object (index.js lines 4-7);
* `saveLoginToken` / `restoreLoginToken` (index.js lines 143-154);
* the event flows of `signUpForm`, `loginForm`, `handleAddItem`, `loadUsers`,
  the page-load handler and the `body` submit dispatcher, as functions from
  the form inputs and the server responses to the list of observable actions
  (outbound requests with their Authorization header, navigations, cookie
  writes, DOM updates, console logs) the code performs.

A JavaScript exception is modelled by `JsOutcome.thrown`, carrying the state
at the moment of the throw (no later assignment happens).
-/

mutual

inductive Json where
  | null : Json
  | bool (b : Bool) : Json
  | num (n : Int) : Json
  | str (s : String) : Json
  | arr (items : JsonList) : Json
  | obj (fields : JsonFields) : Json

inductive JsonList where
  | nil : JsonList
  | cons (hd : Json) (tl : JsonList) : JsonList

inductive JsonFields where
  | nil : JsonFields
  | cons (key : String) (val : Json) (tl : JsonFields) : JsonFields

end

/-- Decimal digit character for a digit value (values above nine collapse
to the last branch, which digit-producing callers never reach). -/
def digitChar (d : Nat) : Char :=
  match d with
  | 0 => '0' | 1 => '1' | 2 => '2' | 3 => '3' | 4 => '4'
  | 5 => '5' | 6 => '6' | 7 => '7' | 8 => '8' | _ => '9'

/-- The least significant decimal digit of a number, as a character. -/
def lastDigitChar (n : Nat) : Char := digitChar (n % 10)

/-- Decimal digit characters of a natural number, most significant first. -/
def natToDigits (n : Nat) : List Char :=
  if n < 10 then [digitChar n]
  else natToDigits (n / 10) ++ [lastDigitChar n]
  decreasing_by
    omega

/-- JSON escaping of one string character (see the header comment for the
escapes the model implements). -/
def escapeChar (c : Char) : List Char :=
  if c = '"' then ['\\', '"']
  else if c = '\\' then ['\\', '\\']
  else if c = '\n' then ['\\', 'n']
  else if c = '\r' then ['\\', 'r']
  else if c = '\t' then ['\\', 't']
  else [c]

/-- JSON escaping of a string body. -/
def escapeChars : List Char → List Char
  | [] => []
  | c :: rest => escapeChar c ++ escapeChars rest

mutual

/-- Characters of the `JSON.stringify` serialization of a value. -/
def strV : Json → List Char
  | .null => "null".data
  | .bool true => "true".data
  | .bool false => "false".data
  | .num n => if n < 0 then '-' :: natToDigits n.natAbs else natToDigits n.natAbs
  | .str s => '"' :: (escapeChars s.data ++ ['"'])
  | .arr .nil => ['[', ']']
  | .arr (.cons x tl) => '[' :: (strItems (.cons x tl) ++ [']'])
  | .obj .nil => ['\x7b', '\x7d']
  | .obj (.cons k v tl) => '\x7b' :: (strFields (.cons k v tl) ++ ['\x7d'])

/-- Comma-separated serialization of array elements. -/
def strItems : JsonList → List Char
  | .nil => []
  | .cons x .nil => strV x
  | .cons x (.cons y tl) => strV x ++ ',' :: strItems (.cons y tl)

/-- Comma-separated serialization of object members. -/
def strFields : JsonFields → List Char
  | .nil => []
  | .cons k v .nil => '"' :: (escapeChars k.data ++ ['"']) ++ ':' :: strV v
  | .cons k v (.cons k2 v2 tl) =>
      '"' :: (escapeChars k.data ++ ['"']) ++ ':' :: strV v ++
        ',' :: strFields (.cons k2 v2 tl)

end

/-- Model of `JSON.stringify`. -/
def JSONStringify (t : Json) : String := String.mk (strV t)

/-- Numeric value of a decimal digit character. -/
def digitVal (c : Char) : Nat := c.toNat - 48

/-- Inverse of `escapeChar` on the escape letter following a backslash. -/
def unescapeChar (esc : Char) : Option Char :=
  if esc = '"' then some '"'
  else if esc = '\\' then some '\\'
  else if esc = 'n' then some '\n'
  else if esc = 'r' then some '\r'
  else if esc = 't' then some '\t'
  else none

/-- Parses a JSON string body up to and including the closing quote,
returning the unescaped characters and the remaining input. -/
def parseStringBody : List Char → Option (List Char × List Char)
  | [] => none
  | c :: rest =>
    if c = '"' then some ([], rest)
    else if c = '\\' then
      match rest with
      | [] => none
      | e :: rest2 =>
        (unescapeChar e).bind fun u =>
          (parseStringBody rest2).map fun p => (u :: p.1, p.2)
    else (parseStringBody rest).map fun p => (c :: p.1, p.2)

/-- Consumes a maximal run of decimal digits, folding them onto `acc`. -/
def parseDigitsAcc (acc : Nat) : List Char → Nat × List Char
  | [] => (acc, [])
  | c :: rest =>
    if c.isDigit then parseDigitsAcc (acc * 10 + digitVal c) rest
    else (acc, c :: rest)

/-- The three mutually recursive JSON parsers at one recursion depth
(value, array elements, object members); the recursion over the fuel is tied
below in `parsers`. -/
structure Parsers where
  pv : List Char → Option (Json × List Char)
  pi : List Char → Option (JsonList × List Char)
  pf : List Char → Option (JsonFields × List Char)

/-- One JSON value; composite values recurse through the previous depth. -/
def parseValueStep (prev : Parsers) : List Char → Option (Json × List Char)
  | [] => none
  | c :: rest =>
    if c = 'n' then
      match rest with
      | 'u' :: 'l' :: 'l' :: r => some (.null, r)
      | _ => none
    else if c = 't' then
      match rest with
      | 'r' :: 'u' :: 'e' :: r => some (.bool true, r)
      | _ => none
    else if c = 'f' then
      match rest with
      | 'a' :: 'l' :: 's' :: 'e' :: r => some (.bool false, r)
      | _ => none
    else if c = '"' then
      (parseStringBody rest).map fun p => (.str (String.mk p.1), p.2)
    else if c = '-' then
      match rest with
      | [] => none
      | c2 :: rest2 =>
        if c2.isDigit then
          let p := parseDigitsAcc (digitVal c2) rest2
          some (.num (-(p.1 : Int)), p.2)
        else none
    else if c = '[' then
      match rest with
      | [] => none
      | c2 :: rest2 =>
        if c2 = ']' then some (.arr .nil, rest2)
        else (prev.pi (c2 :: rest2)).map fun p => (.arr p.1, p.2)
    else if c = '\x7b' then
      match rest with
      | [] => none
      | c2 :: rest2 =>
        if c2 = '\x7d' then some (.obj .nil, rest2)
        else (prev.pf (c2 :: rest2)).map fun p => (.obj p.1, p.2)
    else if c.isDigit then
      let p := parseDigitsAcc (digitVal c) rest
      some (.num (p.1 : Int), p.2)
    else none

/-- One or more comma-separated array elements and the closing bracket. -/
def parseItemsStep (prev : Parsers) (input : List Char) :
    Option (JsonList × List Char) :=
  (prev.pv input).bind fun p =>
    match p.2 with
    | ',' :: rest => (prev.pi rest).map fun q => (.cons p.1 q.1, q.2)
    | ']' :: rest => some (.cons p.1 .nil, rest)
    | _ => none

/-- One or more comma-separated object members and the closing brace. -/
def parseFieldsStep (prev : Parsers) (input : List Char) :
    Option (JsonFields × List Char) :=
  match input with
  | '"' :: rest =>
    (parseStringBody rest).bind fun kp =>
      match kp.2 with
      | ':' :: rest2 =>
        (prev.pv rest2).bind fun vp =>
          match vp.2 with
          | ',' :: rest3 =>
              (prev.pf rest3).map fun q =>
                (.cons (String.mk kp.1) vp.1 q.1, q.2)
          | '\x7d' :: rest3 => some (.cons (String.mk kp.1) vp.1 .nil, rest3)
          | _ => none
      | _ => none
  | _ => none

/-- Fuel-indexed family of the three parsers; `fuel` bounds the recursion
depth and `fuelV` below computes a sufficient amount. -/
def parsers : Nat → Parsers
  | 0 => ⟨fun _ => none, fun _ => none, fun _ => none⟩
  | fuel + 1 =>
    ⟨parseValueStep (parsers fuel), parseItemsStep (parsers fuel),
      parseFieldsStep (parsers fuel)⟩

/-- Fuel-indexed JSON value parser. -/
def parseValue (fuel : Nat) (input : List Char) : Option (Json × List Char) :=
  (parsers fuel).pv input

/-- Fuel-indexed parser for one or more array elements. -/
def parseItems (fuel : Nat) (input : List Char) : Option (JsonList × List Char) :=
  (parsers fuel).pi input

/-- Fuel-indexed parser for one or more object members. -/
def parseFields (fuel : Nat) (input : List Char) : Option (JsonFields × List Char) :=
  (parsers fuel).pf input

/-- Model of `JSON.parse`: a parse succeeds exactly when the whole input is
consumed as one JSON value; `none` models the `SyntaxError` the runtime
throws. -/
def JSONParse (s : String) : Option Json :=
  match parseValue (s.length + 1) s.data with
  | some (v, []) => some v
  | _ => none

mutual

/-- Fuel sufficient for `parseValue` on the serialization of a value. -/
def fuelV : Json → Nat
  | .arr l => 1 + fuelItems l
  | .obj l => 1 + fuelFields l
  | _ => 1

/-- Fuel sufficient for `parseItems` on serialized array elements. -/
def fuelItems : JsonList → Nat
  | .nil => 0
  | .cons x tl => 1 + fuelV x + fuelItems tl

/-- Fuel sufficient for `parseFields` on serialized object members. -/
def fuelFields : JsonFields → Nat
  | .nil => 0
  | .cons _ v tl => 1 + fuelV v + fuelFields tl

end

theorem digitChar_isDigit (d : Nat) (h : d < 10) : (digitChar d).isDigit = true := by
  interval_cases d <;> decide

theorem digitVal_digitChar (d : Nat) (h : d < 10) : digitVal (digitChar d) = d := by
  interval_cases d <;> decide

theorem natToDigits_ne_nil (n : Nat) : natToDigits n ≠ [] := by
  rw [natToDigits]
  split <;> simp

theorem natToDigits_all_digits (n : Nat) : (natToDigits n).all Char.isDigit = true := by
  induction n using Nat.strong_induction_on with
  | _ n hrec =>
    rw [natToDigits]
    split
    · simp [digitChar_isDigit, *]
    · rename_i h
      have hlt : n / 10 < n := by omega
      simp [List.all_append, hrec _ hlt, lastDigitChar, digitChar_isDigit,
        Nat.mod_lt]

theorem parseDigitsAcc_append (ds : List Char) (acc : Nat) (rest : List Char)
    (hds : ds.all Char.isDigit = true)
    (hrest : ∀ c cs, rest = c :: cs → c.isDigit = false) :
    parseDigitsAcc acc (ds ++ rest) =
      (ds.foldl (fun a c => a * 10 + digitVal c) acc, rest) := by
  induction ds generalizing acc with
  | nil =>
    simp only [List.nil_append, List.foldl_nil]
    cases rest with
    | nil => rfl
    | cons c cs =>
      rw [parseDigitsAcc]
      simp [hrest c cs rfl]
  | cons c ds ih =>
    simp only [List.all_cons, Bool.and_eq_true] at hds
    rw [List.cons_append, parseDigitsAcc]
    simp only [hds.1, if_true, List.foldl_cons]
    exact ih _ hds.2

theorem foldl_natToDigits (n acc : Nat) :
    (natToDigits n).foldl (fun a c => a * 10 + digitVal c) acc =
      acc * 10 ^ (natToDigits n).length + n := by
  induction n using Nat.strong_induction_on generalizing acc with
  | _ n hrec =>
    rw [natToDigits]
    split
    · rename_i h
      simp [digitVal_digitChar n h]
    · rename_i h
      have hlt : n / 10 < n := by omega
      rw [List.foldl_append, List.foldl_cons, List.foldl_nil, hrec _ hlt,
        List.length_append]
      simp only [List.length_cons, List.length_nil, lastDigitChar]
      rw [digitVal_digitChar _ (by omega)]
      rw [pow_succ]
      have := Nat.div_add_mod n 10
      ring_nf
      omega

theorem escapeChar_spec (c : Char) :
    (escapeChar c = [c] ∧ c ≠ '"' ∧ c ≠ '\\') ∨
    (∃ e, escapeChar c = ['\\', e] ∧ unescapeChar e = some c) := by
  by_cases h1 : c = '"'
  · subst h1; right; exact ⟨'"', by decide, by decide⟩
  · by_cases h2 : c = '\\'
    · subst h2; right; exact ⟨'\\', by decide, by decide⟩
    · by_cases h3 : c = '\n'
      · subst h3; right; exact ⟨'n', by decide, by decide⟩
      · by_cases h4 : c = '\r'
        · subst h4; right; exact ⟨'r', by decide, by decide⟩
        · by_cases h5 : c = '\t'
          · subst h5; right; exact ⟨'t', by decide, by decide⟩
          · left
            refine ⟨?_, h1, h2⟩
            simp [escapeChar, h1, h2, h3, h4, h5]

theorem parseStringBody_escape (cs rest : List Char) :
    parseStringBody (escapeChars cs ++ '"' :: rest) = some (cs, rest) := by
  induction cs with
  | nil =>
    show parseStringBody ('"' :: rest) = _
    rw [parseStringBody.eq_def]
    simp
  | cons c cs ih =>
    show parseStringBody ((escapeChar c ++ escapeChars cs) ++ '"' :: rest) = _
    rw [List.append_assoc]
    rcases escapeChar_spec c with ⟨he, hc1, hc2⟩ | ⟨e, he, hu⟩
    · rw [he, List.cons_append, List.nil_append, parseStringBody.eq_def]
      simp [hc1, hc2, ih]
    · rw [he, List.cons_append, List.cons_append, List.nil_append,
        parseStringBody.eq_def]
      simp [hu, ih]

/-- Input does not begin with a decimal digit (a number serialization
followed by such input parses back exactly). -/
def headNotDigit : List Char → Bool
  | [] => true
  | c :: _ => !c.isDigit

theorem digit_ne_specials (c : Char) (h : c.isDigit = true) :
    c ≠ '[' ∧ c ≠ ']' ∧ c ≠ '\x7b' ∧ c ≠ '\x7d' ∧ c ≠ 'n' ∧ c ≠ 't' ∧
      c ≠ 'f' ∧ c ≠ '"' ∧ c ≠ '-' := by
  have hne : ∀ x : Char, x.isDigit = false → c ≠ x := by
    intro x hx hEq
    rw [hEq, hx] at h
    exact Bool.false_ne_true h
  exact ⟨hne '[' (by decide), hne ']' (by decide), hne '\x7b' (by decide),
    hne '\x7d' (by decide), hne 'n' (by decide), hne 't' (by decide),
    hne 'f' (by decide), hne '"' (by decide), hne '-' (by decide)⟩

theorem natToDigits_head_digit (n : Nat) :
    ∃ c cs, natToDigits n = c :: cs ∧ c.isDigit = true ∧
      cs.all Char.isDigit = true := by
  have hne := natToDigits_ne_nil n
  have hall := natToDigits_all_digits n
  cases hEq : natToDigits n with
  | nil => exact absurd hEq hne
  | cons c cs =>
    rw [hEq] at hall
    simp only [List.all_cons, Bool.and_eq_true] at hall
    exact ⟨c, cs, rfl, hall.1, hall.2⟩

theorem headNotDigit_stop (rest : List Char) (hrest : headNotDigit rest = true) :
    ∀ c cs, rest = c :: cs → c.isDigit = false := by
  intro c cs hEq
  subst hEq
  simpa [headNotDigit] using hrest

theorem parseDigitsAcc_natToDigits (m : Nat) (c : Char) (cs rest : List Char)
    (hEq : natToDigits m = c :: cs) (hrest : headNotDigit rest = true) :
    parseDigitsAcc (digitVal c) (cs ++ rest) = (m, rest) := by
  have hall := natToDigits_all_digits m
  rw [hEq] at hall
  simp only [List.all_cons, Bool.and_eq_true] at hall
  rw [parseDigitsAcc_append cs (digitVal c) rest hall.2 (headNotDigit_stop rest hrest)]
  have hfold := foldl_natToDigits m 0
  rw [hEq] at hfold
  simp only [List.foldl_cons, Nat.zero_mul, Nat.zero_add] at hfold
  rw [hfold]

theorem strV_head_spec (t : Json) :
    ∃ c cs, strV t = c :: cs ∧ c ≠ ']' ∧ c ≠ '\x7d' := by
  cases t with
  | null => exact ⟨'n', _, rfl, by decide, by decide⟩
  | bool b =>
    cases b with
    | false => exact ⟨'f', _, rfl, by decide, by decide⟩
    | true => exact ⟨'t', _, rfl, by decide, by decide⟩
  | num n =>
    by_cases hn : n < 0
    · refine ⟨'-', natToDigits n.natAbs, ?_, by decide, by decide⟩
      simp [strV, hn]
    · obtain ⟨c, cs, hEq, hc, _⟩ := natToDigits_head_digit n.natAbs
      obtain ⟨hlb, hrb, hlc, hrc, _⟩ := digit_ne_specials c hc
      refine ⟨c, cs, ?_, hrb, hrc⟩
      simp [strV, hn, hEq]
  | str s => exact ⟨'"', _, rfl, by decide, by decide⟩
  | arr l =>
    cases l with
    | nil => exact ⟨'[', _, rfl, by decide, by decide⟩
    | cons x tl => exact ⟨'[', _, rfl, by decide, by decide⟩
  | obj l =>
    cases l with
    | nil => exact ⟨'\x7b', _, rfl, by decide, by decide⟩
    | cons k v tl => exact ⟨'\x7b', _, rfl, by decide, by decide⟩

theorem fuelV_pos (t : Json) : 1 ≤ fuelV t := by
  cases t <;> simp [fuelV]

theorem pos_eq_succ (m : Nat) (hm : 1 ≤ m) : ∃ k, m = k + 1 :=
  ⟨m - 1, by omega⟩

theorem strItems_cons_decomp (x : Json) (tl : JsonList) :
    ∃ tail, strItems (JsonList.cons x tl) = strV x ++ tail := by
  cases tl with
  | nil => exact ⟨[], by simp [strItems]⟩
  | cons y tl2 => exact ⟨',' :: strItems (JsonList.cons y tl2), by simp [strItems]⟩

theorem parseValue_null (f : Nat) (rest : List Char) :
    parseValue (f + 1) ("null".data ++ rest) = some (Json.null, rest) := rfl

theorem parseValue_true (f : Nat) (rest : List Char) :
    parseValue (f + 1) ("true".data ++ rest) =
      some (Json.bool true, rest) := rfl

theorem parseValue_false (f : Nat) (rest : List Char) :
    parseValue (f + 1) ("false".data ++ rest) =
      some (Json.bool false, rest) := rfl

theorem parseValue_arr_nil (f : Nat) (rest : List Char) :
    parseValue (f + 1) ('[' :: ']' :: rest) =
      some (Json.arr JsonList.nil, rest) := rfl

theorem parseValue_obj_nil (f : Nat) (rest : List Char) :
    parseValue (f + 1) ('\x7b' :: '\x7d' :: rest) =
      some (Json.obj JsonFields.nil, rest) := rfl

theorem parseValue_quote (f : Nat) (xs : List Char) :
    parseValue (f + 1) ('"' :: xs) =
      (parseStringBody xs).map fun p => (Json.str (String.mk p.1), p.2) := rfl

theorem parseValue_dash (f : Nat) (c : Char) (xs : List Char) :
    parseValue (f + 1) ('-' :: c :: xs) =
      if c.isDigit then
        some (Json.num (-((parseDigitsAcc (digitVal c) xs).1 : Int)),
          (parseDigitsAcc (digitVal c) xs).2)
      else none := rfl

theorem parseValue_digit (f : Nat) (c : Char) (xs : List Char)
    (hc : c.isDigit = true) :
    parseValue (f + 1) (c :: xs) =
      some (Json.num ((parseDigitsAcc (digitVal c) xs).1 : Int),
        (parseDigitsAcc (digitVal c) xs).2) := by
  obtain ⟨hlb, _, hob, _, hkn, hkt, hkf, hkq, hkm⟩ := digit_ne_specials c hc
  simp [parseValue, parsers, parseValueStep, hkn, hkt, hkf, hkq, hkm, hlb,
    hob, hc]

theorem parseValue_lbracket (f : Nat) (c : Char) (xs : List Char) (hc : c ≠ ']') :
    parseValue (f + 1) ('[' :: c :: xs) =
      (parseItems f (c :: xs)).map fun p => (Json.arr p.1, p.2) := by
  simp [parseValue, parseItems, parsers, parseValueStep, hc]

theorem parseValue_lbrace (f : Nat) (c : Char) (xs : List Char) (hc : c ≠ '\x7d') :
    parseValue (f + 1) ('\x7b' :: c :: xs) =
      (parseFields f (c :: xs)).map fun p => (Json.obj p.1, p.2) := by
  simp [parseValue, parseFields, parsers, parseValueStep, hc]

theorem parseItems_step (f : Nat) (input : List Char) :
    parseItems (f + 1) input =
      (parseValue f input).bind fun p =>
        match p.2 with
        | ',' :: rest => (parseItems f rest).map fun q => (JsonList.cons p.1 q.1, q.2)
        | ']' :: rest => some (JsonList.cons p.1 JsonList.nil, rest)
        | _ => none := rfl

theorem parseFields_quote (f : Nat) (xs : List Char) :
    parseFields (f + 1) ('"' :: xs) =
      (parseStringBody xs).bind fun kp =>
        match kp.2 with
        | ':' :: rest2 =>
          (parseValue f rest2).bind fun vp =>
            match vp.2 with
            | ',' :: rest3 =>
                (parseFields f rest3).map fun q =>
                  (JsonFields.cons (String.mk kp.1) vp.1 q.1, q.2)
            | '\x7d' :: rest3 =>
                some (JsonFields.cons (String.mk kp.1) vp.1 JsonFields.nil, rest3)
            | _ => none
        | _ => none := rfl

mutual

theorem parse_strV (t : Json) (fuel : Nat) (rest : List Char)
    (hf : fuelV t ≤ fuel) (hrest : headNotDigit rest = true) :
    parseValue fuel (strV t ++ rest) = some (t, rest) := by
  have hpos : 1 ≤ fuelV t := fuelV_pos t
  obtain ⟨f, rfl⟩ := pos_eq_succ fuel (by omega)
  cases t with
  | null => exact parseValue_null f rest
  | bool b =>
    cases b with
    | false => exact parseValue_false f rest
    | true => exact parseValue_true f rest
  | num n =>
    obtain ⟨c, cs, hEq, hc, _⟩ := natToDigits_head_digit n.natAbs
    by_cases hn : n < 0
    · have hs : strV (Json.num n) = '-' :: natToDigits n.natAbs := by
        simp [strV, hn]
      rw [hs, hEq, List.cons_append, List.cons_append, parseValue_dash,
        if_pos hc, parseDigitsAcc_natToDigits n.natAbs c cs rest hEq hrest]
      have hval : -((n.natAbs : Nat) : Int) = n := by omega
      rw [hval]
    · have hs : strV (Json.num n) = natToDigits n.natAbs := by
        simp [strV, hn]
      rw [hs, hEq, List.cons_append,
        parseValue_digit f c (cs ++ rest) hc,
        parseDigitsAcc_natToDigits n.natAbs c cs rest hEq hrest]
      have hval : ((n.natAbs : Nat) : Int) = n := by omega
      rw [hval]
  | str s =>
    obtain ⟨sd⟩ := s
    have hshape : strV (Json.str (String.mk sd)) ++ rest =
        '"' :: (escapeChars sd ++ '"' :: rest) := by
      simp [strV]
    rw [hshape, parseValue_quote, parseStringBody_escape]
    rfl
  | arr l =>
    cases l with
    | nil =>
      show parseValue (f + 1) (['[', ']'] ++ rest) = _
      simp only [List.cons_append, List.nil_append]
      exact parseValue_arr_nil f rest
    | cons x tl =>
      have hfi : fuelItems (JsonList.cons x tl) ≤ f := by
        simp only [fuelV] at hf
        omega
      obtain ⟨c, cs, hcEq, hc1, _⟩ := strV_head_spec x
      obtain ⟨tail, hdec⟩ := strItems_cons_decomp x tl
      have hshape : strV (Json.arr (JsonList.cons x tl)) ++ rest =
          '[' :: (strItems (JsonList.cons x tl) ++ ']' :: rest) := by
        simp [strV]
      have hws : strItems (JsonList.cons x tl) ++ ']' :: rest =
          c :: (cs ++ tail ++ ']' :: rest) := by
        rw [hdec, hcEq]
        simp
      rw [hshape, hws, parseValue_lbracket f c _ hc1, ← hws,
        parse_strItems x tl f rest hfi]
      rfl
  | obj l =>
    cases l with
    | nil =>
      show parseValue (f + 1) (['\x7b', '\x7d'] ++ rest) = _
      simp only [List.cons_append, List.nil_append]
      exact parseValue_obj_nil f rest
    | cons k v tl =>
      have hfi : fuelFields (JsonFields.cons k v tl) ≤ f := by
        simp only [fuelV] at hf
        omega
      have hshape : strV (Json.obj (JsonFields.cons k v tl)) ++ rest =
          '\x7b' :: (strFields (JsonFields.cons k v tl) ++ '\x7d' :: rest) := by
        simp [strV]
      have hws : ∃ ws, strFields (JsonFields.cons k v tl) ++ '\x7d' :: rest =
          '"' :: ws := by
        cases tl with
        | nil =>
          exact ⟨(escapeChars k.data ++ ['"']) ++ ':' :: strV v ++ '\x7d' :: rest,
            by simp [strFields]⟩
        | cons k2 v2 tl2 =>
          exact ⟨(escapeChars k.data ++ ['"']) ++ ':' :: strV v ++
            ',' :: strFields (JsonFields.cons k2 v2 tl2) ++ '\x7d' :: rest,
            by simp [strFields]⟩
      obtain ⟨ws, hws⟩ := hws
      rw [hshape, hws, parseValue_lbrace f '"' _ (by decide), ← hws,
        parse_strFields k v tl f rest hfi]
      rfl
termination_by sizeOf t

theorem parse_strItems (x : Json) (tl : JsonList) (fuel : Nat) (rest : List Char)
    (hf : fuelItems (JsonList.cons x tl) ≤ fuel) :
    parseItems fuel (strItems (JsonList.cons x tl) ++ ']' :: rest) =
      some (JsonList.cons x tl, rest) := by
  obtain ⟨f, rfl⟩ := pos_eq_succ fuel (by simp only [fuelItems] at hf; omega)
  have hfx : fuelV x ≤ f := by simp only [fuelItems] at hf; omega
  cases tl with
  | nil =>
    rw [show strItems (JsonList.cons x JsonList.nil) = strV x from rfl,
      parseItems_step, parse_strV x f (']' :: rest) hfx (by rfl)]
    rfl
  | cons y tl2 =>
    have hfi2 : fuelItems (JsonList.cons y tl2) ≤ f := by
      simp only [fuelItems] at hf ⊢
      omega
    rw [show strItems (JsonList.cons x (JsonList.cons y tl2)) =
        strV x ++ ',' :: strItems (JsonList.cons y tl2) from rfl,
      List.append_assoc, List.cons_append, parseItems_step,
      parse_strV x f _ hfx (by rfl)]
    show (parseItems f (strItems (JsonList.cons y tl2) ++ ']' :: rest)).map
        (fun q => (JsonList.cons x q.1, q.2)) = _
    rw [parse_strItems y tl2 f rest hfi2]
    rfl
termination_by 1 + sizeOf x + sizeOf tl

theorem parse_strFields (k : String) (v : Json) (tl : JsonFields) (fuel : Nat)
    (rest : List Char) (hf : fuelFields (JsonFields.cons k v tl) ≤ fuel) :
    parseFields fuel (strFields (JsonFields.cons k v tl) ++ '\x7d' :: rest) =
      some (JsonFields.cons k v tl, rest) := by
  obtain ⟨f, rfl⟩ := pos_eq_succ fuel (by simp only [fuelFields] at hf; omega)
  have hfv : fuelV v ≤ f := by simp only [fuelFields] at hf; omega
  obtain ⟨kd⟩ := k
  cases tl with
  | nil =>
    have hshape : strFields (JsonFields.cons (String.mk kd) v JsonFields.nil) ++
        '\x7d' :: rest =
        '"' :: (escapeChars kd ++ '"' :: (':' :: (strV v ++ '\x7d' :: rest))) := by
      simp [strFields]
    rw [hshape, parseFields_quote, parseStringBody_escape]
    show (parseValue f (strV v ++ '\x7d' :: rest)).bind _ = _
    rw [parse_strV v f ('\x7d' :: rest) hfv (by rfl)]
    rfl
  | cons k2 v2 tl2 =>
    have hfi2 : fuelFields (JsonFields.cons k2 v2 tl2) ≤ f := by
      simp only [fuelFields] at hf ⊢
      omega
    have hshape : strFields (JsonFields.cons (String.mk kd) v
        (JsonFields.cons k2 v2 tl2)) ++ '\x7d' :: rest =
        '"' :: (escapeChars kd ++ '"' :: (':' ::
          (strV v ++ ',' :: (strFields (JsonFields.cons k2 v2 tl2) ++
            '\x7d' :: rest)))) := by
      simp [strFields]
    rw [hshape, parseFields_quote, parseStringBody_escape]
    show (parseValue f (strV v ++ ',' :: (strFields (JsonFields.cons k2 v2 tl2) ++
        '\x7d' :: rest))).bind _ = _
    rw [parse_strV v f _ hfv (by rfl)]
    show (parseFields f (strFields (JsonFields.cons k2 v2 tl2) ++
        '\x7d' :: rest)).map _ = _
    rw [parse_strFields k2 v2 tl2 f rest hfi2]
    rfl
termination_by 1 + sizeOf v + sizeOf tl

end

mutual

theorem fuelV_le_strV (t : Json) : fuelV t ≤ (strV t).length := by
  cases t with
  | null => simp [fuelV, strV]
  | bool b =>
    cases b with
    | false => simp [fuelV, strV]
    | true => simp [fuelV, strV]
  | num n =>
    by_cases hn : n < 0
    · simp [fuelV, strV, hn]
    · have hlen : 0 < (natToDigits n.natAbs).length :=
        List.length_pos.mpr (natToDigits_ne_nil n.natAbs)
      simp only [fuelV, strV, if_neg hn]
      omega
  | str s => simp [fuelV, strV]
  | arr l =>
    cases l with
    | nil => simp [fuelV, strV, fuelItems]
    | cons x tl =>
      have h := fuelItems_le_strItems (JsonList.cons x tl)
      simp only [fuelV, strV, List.length_cons, List.length_append,
        List.length_singleton]
      omega
  | obj l =>
    cases l with
    | nil => simp [fuelV, strV, fuelFields]
    | cons k v tl =>
      have h := fuelFields_le_strFields (JsonFields.cons k v tl)
      simp only [fuelV, strV, List.length_cons, List.length_append,
        List.length_singleton]
      omega
termination_by sizeOf t

theorem fuelItems_le_strItems (l : JsonList) :
    fuelItems l ≤ (strItems l).length + 1 := by
  cases l with
  | nil => simp [fuelItems]
  | cons x tl =>
    have hx := fuelV_le_strV x
    cases tl with
    | nil =>
      simp only [fuelItems, strItems]
      omega
    | cons y tl2 =>
      have ht := fuelItems_le_strItems (JsonList.cons y tl2)
      simp only [fuelItems, strItems, List.length_append, List.length_cons] at ht ⊢
      omega
termination_by sizeOf l

theorem fuelFields_le_strFields (l : JsonFields) :
    fuelFields l ≤ (strFields l).length + 1 := by
  cases l with
  | nil => simp [fuelFields]
  | cons k v tl =>
    have hv := fuelV_le_strV v
    cases tl with
    | nil =>
      simp only [fuelFields, strFields, List.length_append, List.length_cons]
      omega
    | cons k2 v2 tl2 =>
      have ht := fuelFields_le_strFields (JsonFields.cons k2 v2 tl2)
      simp only [fuelFields, strFields, List.length_append, List.length_cons] at ht ⊢
      omega
termination_by sizeOf l

end

/-- The JSON round trip at the heart of token persistence: parsing the
serialization of any value returns that value. -/
theorem JSONParse_JSONStringify (t : Json) :
    JSONParse (JSONStringify t) = some t := by
  have h := parse_strV t ((strV t).length + 1) []
    (le_trans (fuelV_le_strV t) (by omega)) (by rfl)
  rw [List.append_nil] at h
  unfold JSONParse JSONStringify
  simp only [String.length, h]

theorem JSONStringify_ne_empty (t : Json) : JSONStringify t ≠ "" := by
  obtain ⟨c, cs, hEq, _, _⟩ := strV_head_spec t
  intro h
  have hd := congrArg String.data h
  rw [JSONStringify] at hd
  simp [hEq] at hd

/-- Browser cookie store (js-cookie): an association list from cookie names
to string values. -/
abbrev CookieJar := List (String × String)

/-- Model of js-cookie `Cookies.set(name, value)`: replaces any previous
binding for that name. -/
def cookiesSet (jar : CookieJar) (name value : String) : CookieJar :=
  (name, value) :: jar.filter (fun p => p.1 != name)

/-- Model of js-cookie `Cookies.get(name)`: the current binding, if any. -/
def cookiesGet (jar : CookieJar) (name : String) : Option String :=
  match jar with
  | [] => none
  | (n, v) :: rest => if n = name then some v else cookiesGet rest name

theorem cookiesGet_cookiesSet (jar : CookieJar) (name value : String) :
    cookiesGet (cookiesSet jar name value) name = some value := by
  simp [cookiesSet, cookiesGet]

/-- The client's in-memory session object `APP` (index.js lines 4-7). -/
structure AppState where
  JWT_TOKEN : Json
  lastAssignments : List Json

/-- Result of running a piece of JavaScript: normal completion or a thrown
exception; both carry the resulting state (a throw aborts execution before
any later assignment). -/
inductive JsOutcome (α : Type) where
  | ok (a : α)
  | thrown (a : α)

/-- index.js lines 143-145:
`Cookies.set('APP_TOKEN', JSON.stringify(APP.JWT_TOKEN))`. -/
def saveLoginToken (app : AppState) (jar : CookieJar) : CookieJar :=
  cookiesSet jar "APP_TOKEN" (JSONStringify app.JWT_TOKEN)

/-- index.js lines 148-154: read the `APP_TOKEN` cookie; when it is present
and non-empty (JavaScript string truthiness), `JSON.parse` it into
`APP.JWT_TOKEN`; a parse failure is a thrown `SyntaxError`, reached before
the assignment, so the session object is left untouched. -/
def restoreLoginToken (app : AppState) (jar : CookieJar) : JsOutcome AppState :=
  match cookiesGet jar "APP_TOKEN" with
  | none => .ok app
  | some s =>
    if s = "" then .ok app
    else
      match JSONParse s with
      | some j => .ok { app with JWT_TOKEN := j }
      | none => .thrown app

/-- One assignment as it appears in the server's JSON responses. -/
structure AssignmentRec where
  assignmentName : String
  assignmentDate : String
deriving DecidableEq

/-- One user record of a `GET /api/users` response. -/
structure UserRec where
  id : String
  username : String
  isAdmin : Bool
  Assignments : List AssignmentRec
deriving DecidableEq

/-- The login response: a JSON object carrying the signed token string in
its `authToken` field. -/
structure Token where
  authToken : String
deriving DecidableEq

/-- The login response object as the JSON value assigned to
`APP.JWT_TOKEN`. -/
def tokenToJson (t : Token) : Json :=
  Json.obj (JsonFields.cons "authToken" (Json.str t.authToken) JsonFields.nil)

/-- Observable actions of the client code: outbound requests (with the
value of their Authorization header, if any), page navigations, console
logs, cookie writes and removals, and DOM updates. -/
inductive JsAction where
  | request (method url : String) (auth : Option String)
  | navigate (url : String)
  | consoleLog (msg : String)
  | setCookie (name value : String)
  | removeCookie (name : String)
  | setHtml (selector html : String)
  | hideElem (selector : String)
  | showElem (selector : String)
deriving DecidableEq

/-- Sign-up failure payload (`err.responseJSON` in index.js lines 53-63). -/
structure ErrResponse where
  message : String
  location : String
deriving DecidableEq

/-- index.js lines 52-64: the sign-up error handler; it fills both inline
error slots and then shows the one named by the error's `location` field
(hiding the other); any other `location` leaves visibility unchanged. -/
def signUpErrorActions (err : ErrResponse) : List JsAction :=
  [.setHtml ".js-errorsUser" ("Username " ++ err.message ++ "!"),
   .setHtml ".js-errorsPass" ("Password " ++ err.message ++ "!")] ++
  (if err.location = "username" then
    [.hideElem ".js-errorsPass", .showElem ".js-errorsUser"]
   else if err.location = "password" then
    [.hideElem ".js-errorsUser", .showElem ".js-errorsPass"]
   else [])

/-- index.js lines 30-68 `signUpForm`: POST the form without an
Authorization header; navigate to the login page on success, run the inline
error handler on failure. -/
def signUpFlow (result : Except ErrResponse Unit) : List JsAction :=
  JsAction.request "POST" "/api/users" none ::
  match result with
  | .ok _ => [.consoleLog "response", .navigate "login.html"]
  | .error err => signUpErrorActions err

/-- index.js lines 181-193: the `/api/protected` probe inside the login
success path, sent with the freshly stored bearer token; it navigates to
the teacher dashboard only in the probe's own success callback and only
logs on probe failure. -/
def probeActions (tok : Token) (probeOk : Bool) : List JsAction :=
  JsAction.request "GET" "/api/protected" (some ("Bearer " ++ tok.authToken)) ::
  (if probeOk then [.navigate "teacher-dash.html"] else [.consoleLog "error"])

/-- index.js lines 179-206: the loop over the users-list response; for each
entry whose `username` matches the typed one with `isAdmin === true` it
runs the probe (the student branch in the source is commented out and does
nothing). -/
def loginUsersLoop (formUsername : String) (tok : Token) (probeOk : Bool) :
    List UserRec → List JsAction
  | [] => []
  | u :: rest =>
    (if u.username = formUsername ∧ u.isAdmin = true then
      probeActions tok probeOk
     else []) ++ loginUsersLoop formUsername tok probeOk rest

/-- index.js lines 158-216 `loginForm`: POST the credentials without an
Authorization header (this request installs no error handler, so a rejected
login produces no action at all); on success assign the token to
`APP.JWT_TOKEN`, persist it with `saveLoginToken`, log it, then GET the
users list -- also without an Authorization header -- and run the loop
above on its response (logging on its failure). -/
def loginFlowActions (formUsername : String) (loginResult : Option Token)
    (usersResult : Option (List UserRec)) (probeOk : Bool) : List JsAction :=
  JsAction.request "POST" "/api/auth/login" none ::
  match loginResult with
  | none => []
  | some tok =>
    JsAction.setCookie "APP_TOKEN" (JSONStringify (tokenToJson tok)) ::
    JsAction.consoleLog "token" ::
    JsAction.request "GET" "/api/users/" none ::
    match usersResult with
    | none => [.consoleLog "error"]
    | some users => loginUsersLoop formUsername tok probeOk users

/-- The value `loginForm` leaves in `APP.JWT_TOKEN`: set in the login
success callback, never cleared on any failure path. -/
def loginFlowToken (app : AppState) (loginResult : Option Token) : AppState :=
  match loginResult with
  | none => app
  | some tok => { app with JWT_TOKEN := tokenToJson tok }

/-- Replay of the cookie writes and removals of an action list onto a
jar. -/
def applyCookieActions (acts : List JsAction) (jar : CookieJar) : CookieJar :=
  match acts with
  | [] => jar
  | .setCookie n v :: rest => applyCookieActions rest (cookiesSet jar n v)
  | .removeCookie n :: rest =>
      applyCookieActions rest (jar.filter (fun p => p.1 != n))
  | _ :: rest => applyCookieActions rest jar

/-- dash-teacher.js line 31: the `li` rendered for one assignment of the
returned user, interpolating its `assignmentName` and `assignmentDate`. -/
def assignmentLi (a : AssignmentRec) : String :=
  "<li><span>Assignment: <b class=\"assignmentColor\">" ++ a.assignmentName ++
    "</b> Due Date: <b class=\"assignmentColor\">" ++ a.assignmentDate ++
    "</b></span><button class=\"assignment-item-update button-label\">Edit" ++
    "</button><button class=\"assignment-item-delete button-label\">Delete" ++
    "</button></li>"

/-- dash-teacher.js lines 24-35: the `createList` success callback; empties
the list element, appends a username header, then appends one `li` per
element of the returned user's `Assignments`, in response order. -/
def createListRender (userObj : UserRec) : List String :=
  ("<h3>" ++ userObj.username ++ "</h3>") :: userObj.Assignments.map assignmentLi

/-- Modelled from the spec: the server-side create-assignment endpoint
(`POST /api/users/:id`) is not under src/; spec section 4.4 states it
"returns the new Assignment appended to that User's ordered sequence
(append order = creation order, stable for display)", and section 6 states
the response is the updated User with assignments. -/
def serverCreateAssignment (u : UserRec) (name date : String) : UserRec :=
  { u with Assignments := u.Assignments ++ [⟨name, date⟩] }

/-- dash-teacher.js lines 56-57: the `option` element for one student. -/
def studentOption (username : String) : String :=
  "<option value=\"" ++ username ++ "\">" ++ username ++ "</option>"

/-- dash-teacher.js lines 53-60 (`loadUsers` success callback): push one
`option` per user whose `isAdmin === false`, in response order. -/
def loadUsersList (users : List UserRec) : List String :=
  match users with
  | [] => []
  | u :: rest =>
    if u.isAdmin = false then studentOption u.username :: loadUsersList rest
    else loadUsersList rest

/-- index.js lines 114-140: the document-ready handler; logs, calls
`restoreLoginToken`, and registers the submit dispatcher. It issues no
network request and performs no navigation. -/
def indexPageLoad (app : AppState) (jar : CookieJar) :
    JsOutcome AppState × List JsAction :=
  (restoreLoginToken app jar,
    JsAction.consoleLog "APP STARTS" ::
    (match cookiesGet jar "APP_TOKEN" with
     | none => []
     | some s =>
       if s = "" then []
       else
         match JSONParse s with
         | some _ => [.consoleLog "LOGIN RESTORED, APP IS NOW"]
         | none => []))

/-- index.js lines 119-139: the single `body` submit dispatcher; its only
input is the submitted form's `name` attribute -- it consults no in-flight
state. The synchronous effect of the handler it calls is issuing the first
request of the respective flow. -/
def submitSyncActions (formName : String) : List JsAction :=
  (if formName = "signup" then [.request "POST" "/api/users" none] else []) ++
  (if formName = "login" then [.request "POST" "/api/auth/login" none] else []) ++
  (if formName = "js-assignment-list-form" then
    [.consoleLog "You clicked ADD item!", .request "GET" "/api/users" none]
   else []) ++
  (if formName = "list-items" then [.consoleLog "You clicked LIST item!"] else [])

/-- Successive submit events each run the same stateless dispatcher. -/
def processSubmits : List String → List JsAction
  | [] => []
  | e :: rest => submitSyncActions e ++ processSubmits rest

/-- index.js lines 102-104 and dash-teacher.js lines 37-39: the add-item
POST error handler only logs to the console. -/
def addItemErrorActions : List JsAction := [.consoleLog "An error has occured!"]

/-- Recognizer for outbound-request actions. -/
def isRequest : JsAction → Bool
  | .request _ _ _ => true
  | _ => false

/-- Recognizer for navigation actions. -/
def isNavigate : JsAction → Bool
  | .navigate _ => true
  | _ => false

/-- Recognizer for console-log actions. -/
def isConsoleLog : JsAction → Bool
  | .consoleLog _ => true
  | _ => false

/-- Recognizer for cookie-removal actions. -/
def isRemoveCookie : JsAction → Bool
  | .removeCookie _ => true
  | _ => false

/-- Recognizer for the outbound login request. -/
def isLoginRequest : JsAction → Bool
  | .request "POST" "/api/auth/login" _ => true
  | _ => false

/-- Recognizer for a GET request to the users-list endpoint (the code uses
both `/api/users` and `/api/users/`). -/
def isUsersGet : JsAction → Bool
  | .request "GET" "/api/users" _ => true
  | .request "GET" "/api/users/" _ => true
  | _ => false

/-- Recognizer for inline-display actions (DOM updates near form fields). -/
def isDisplayAction : JsAction → Bool
  | .setHtml _ _ => true
  | .hideElem _ => true
  | .showElem _ => true
  | _ => false

/-- C5: Round-trip -- for every JSON-representable token value t, storing t
with saveLoginToken (after setting it as the session token) and then
running restoreLoginToken yields a session token equal to t, read back from
the single fixed cookie name APP_TOKEN. (Token values are JSON values of
the model; numbers are modelled as integers.) -/
theorem C5_save_restore_roundtrip (t : Json) (app app0 : AppState)
    (jar : CookieJar) :
    cookiesGet (saveLoginToken { app with JWT_TOKEN := t } jar) "APP_TOKEN" =
      some (JSONStringify t) ∧
    restoreLoginToken app0 (saveLoginToken { app with JWT_TOKEN := t } jar) =
      JsOutcome.ok { app0 with JWT_TOKEN := t } := by
  have hget : cookiesGet (saveLoginToken { app with JWT_TOKEN := t } jar)
      "APP_TOKEN" = some (JSONStringify t) :=
    cookiesGet_cookiesSet jar "APP_TOKEN" (JSONStringify t)
  refine ⟨hget, ?_⟩
  unfold restoreLoginToken
  rw [hget]
  simp [JSONStringify_ne_empty t, JSONParse_JSONStringify]

/-- C10: if the APP_TOKEN cookie is present with a non-empty value that
does not parse as JSON, restoreLoginToken throws (the JSON.parse
SyntaxError) instead of returning normally and the in-memory session token
is left unchanged. -/
theorem C10_restore_throws_on_bad_json (app : AppState) (jar : CookieJar)
    (s : String) (hget : cookiesGet jar "APP_TOKEN" = some s) (hne : s ≠ "")
    (hbad : JSONParse s = none) :
    restoreLoginToken app jar = JsOutcome.thrown app := by
  unfold restoreLoginToken
  rw [hget]
  simp [hne, hbad]

theorem C10_restore_throws_on_bad_json_witness :
    cookiesGet [("APP_TOKEN", "\x7b")] "APP_TOKEN" = some "\x7b" ∧
    "\x7b" ≠ "" ∧ JSONParse "\x7b" = none ∧
    restoreLoginToken ⟨Json.null, []⟩ [("APP_TOKEN", "\x7b")] =
      JsOutcome.thrown ⟨Json.null, []⟩ :=
  ⟨rfl, by decide, rfl,
    C10_restore_throws_on_bad_json ⟨Json.null, []⟩ [("APP_TOKEN", "\x7b")]
      "\x7b" rfl (by decide) rfl⟩

/-- C9: for every users-list response, the student drop-down is populated
with exactly one option per user whose isAdmin flag is false, carrying that
user's username, in response order; admin entries contribute nothing. -/
theorem C9_loadUsers_students_only (users : List UserRec) :
    loadUsersList users =
      (users.filter (fun u => !u.isAdmin)).map
        (fun u => studentOption u.username) := by
  induction users with
  | nil => rfl
  | cons u rest ih =>
    cases hu : u.isAdmin with
    | false => simp [loadUsersList, hu, ih]
    | true => simp [loadUsersList, hu, ih]

/-- C8: after an assignment is successfully created for a student, the
rendered list contains exactly one li per element of the returned user's
assignment sequence, in sequence order; the returned sequence is the
previous one with the new assignment appended, and the li of the new
assignment -- carrying its name and date fields -- is the last rendered
item. (The server-side create endpoint is modelled from the spec as the
append; see serverCreateAssignment.) -/
theorem C8_create_renders_once_in_order (u : UserRec) (name date : String) :
    (serverCreateAssignment u name date).Assignments =
      u.Assignments ++ [AssignmentRec.mk name date] ∧
    createListRender (serverCreateAssignment u name date) =
      ("<h3>" ++ u.username ++ "</h3>") ::
        (u.Assignments ++ [AssignmentRec.mk name date]).map assignmentLi ∧
    (createListRender (serverCreateAssignment u name date)).getLast? =
      some (assignmentLi (AssignmentRec.mk name date)) := by
  refine ⟨rfl, rfl, ?_⟩
  have hshape : createListRender (serverCreateAssignment u name date) =
      (("<h3>" ++ u.username ++ "</h3>") :: u.Assignments.map assignmentLi) ++
        [assignmentLi (AssignmentRec.mk name date)] := by
    simp [createListRender, serverCreateAssignment]
  rw [hshape]
  exact List.getLast?_concat _

theorem loginUsersLoop_mem (fu : String) (tok : Token) (probeOk : Bool)
    (users : List UserRec) (a : JsAction)
    (h : a ∈ loginUsersLoop fu tok probeOk users) :
    a ∈ probeActions tok probeOk := by
  induction users with
  | nil => simp [loginUsersLoop] at h
  | cons u rest ih =>
    simp only [loginUsersLoop] at h
    rcases List.mem_append.mp h with h1 | h2
    · by_cases hc : u.username = fu ∧ u.isAdmin = true
      · rwa [if_pos hc] at h1
      · rw [if_neg hc] at h1
        simp at h1
    · exact ih h2

theorem probeActions_mem (tok : Token) (probeOk : Bool) (a : JsAction)
    (h : a ∈ probeActions tok probeOk) :
    a = JsAction.request "GET" "/api/protected"
        (some ("Bearer " ++ tok.authToken)) ∨
    (probeOk = true ∧ a = JsAction.navigate "teacher-dash.html") ∨
    (probeOk = false ∧ a = JsAction.consoleLog "error") := by
  cases probeOk with
  | false =>
    simp [probeActions] at h
    tauto
  | true =>
    simp [probeActions] at h
    tauto

theorem loginUsersLoop_navigate (fu : String) (tok : Token) (probeOk : Bool)
    (users : List UserRec)
    (h : JsAction.navigate "teacher-dash.html" ∈
      loginUsersLoop fu tok probeOk users) :
    probeOk = true ∧ ∃ pre post, loginUsersLoop fu tok probeOk users =
      pre ++ JsAction.request "GET" "/api/protected"
          (some ("Bearer " ++ tok.authToken)) ::
        JsAction.navigate "teacher-dash.html" :: post := by
  induction users with
  | nil => simp [loginUsersLoop] at h
  | cons u rest ih =>
    simp only [loginUsersLoop] at h ⊢
    by_cases hc : u.username = fu ∧ u.isAdmin = true
    · rw [if_pos hc] at h ⊢
      cases hp : probeOk with
      | false =>
        rcases List.mem_append.mp h with h1 | h2
        · rw [hp] at h1
          simp [probeActions] at h1
        · obtain ⟨ht, _⟩ := ih h2
          rw [ht] at hp
          exact absurd hp (by decide)
      | true =>
        refine ⟨rfl, [], loginUsersLoop fu tok probeOk rest, ?_⟩
        rw [hp]
        simp [probeActions]
    · rw [if_neg hc] at h ⊢
      simp only [List.nil_append] at h ⊢
      obtain ⟨ht, pre, post, heq⟩ := ih h
      exact ⟨ht, pre, post, heq⟩

/-- C3: the login flow enters the teacher dashboard only when the
`GET /api/protected` probe, sent with the freshly issued bearer token,
succeeded: any navigation to teacher-dash.html in the flow's action trace
directly follows that probe request, happens only with `probeOk = true`,
and only after a successful login response (by contraposition, a failed
probe never leads to the admin view). -/
theorem C3_navigate_only_after_probe (fu : String) (loginResult : Option Token)
    (usersResult : Option (List UserRec)) (probeOk : Bool)
    (hnav : JsAction.navigate "teacher-dash.html" ∈
      loginFlowActions fu loginResult usersResult probeOk) :
    probeOk = true ∧ ∃ tok, loginResult = some tok ∧ ∃ pre post,
      loginFlowActions fu loginResult usersResult probeOk =
        pre ++ JsAction.request "GET" "/api/protected"
            (some ("Bearer " ++ tok.authToken)) ::
          JsAction.navigate "teacher-dash.html" :: post := by
  cases loginResult with
  | none => simp [loginFlowActions] at hnav
  | some tok =>
    cases usersResult with
    | none => simp [loginFlowActions] at hnav
    | some users =>
      have hl : JsAction.navigate "teacher-dash.html" ∈
          loginUsersLoop fu tok probeOk users := by
        simpa [loginFlowActions] using hnav
      obtain ⟨ht, pre, post, heq⟩ := loginUsersLoop_navigate fu tok probeOk users hl
      refine ⟨ht, tok, rfl,
        JsAction.request "POST" "/api/auth/login" none ::
          JsAction.setCookie "APP_TOKEN" (JSONStringify (tokenToJson tok)) ::
          JsAction.consoleLog "token" ::
          JsAction.request "GET" "/api/users/" none :: pre, post, ?_⟩
      simp [loginFlowActions, heq]

theorem C3_navigate_only_after_probe_witness :
    (JsAction.navigate "teacher-dash.html" ∈
      loginFlowActions "t" (some (Token.mk "abc"))
        (some [UserRec.mk "u1" "t" true []]) true) ∧
    (true = true ∧ ∃ tok, some (Token.mk "abc") = some tok ∧ ∃ pre post,
      loginFlowActions "t" (some (Token.mk "abc"))
          (some [UserRec.mk "u1" "t" true []]) true =
        pre ++ JsAction.request "GET" "/api/protected"
            (some ("Bearer " ++ tok.authToken)) ::
          JsAction.navigate "teacher-dash.html" :: post) :=
  ⟨by decide,
    C3_navigate_only_after_probe "t" (some (Token.mk "abc"))
      (some [UserRec.mk "u1" "t" true []]) true (by decide)⟩

/-- C1 counterexample: in a fully successful login flow (token issued,
admin user matched, probe succeeded) the only `GET /api/users` request the
client issues carries no Authorization header, so not every post-login
request -- in particular not the users-list read -- is authenticated with
the persisted token. -/
theorem C1_users_get_unauthenticated :
    (loginFlowActions "t" (some (Token.mk "abc"))
        (some [UserRec.mk "u1" "t" true []]) true).filter isUsersGet =
      [JsAction.request "GET" "/api/users/" none] := by decide

/-- C1 amended: after a successful login, the only request of the login
flow that carries an Authorization header is the `GET /api/protected`
probe, which carries the freshly issued bearer token; every
`GET /api/users` request of the flow is sent without a header. -/
theorem C1_token_only_on_probe (fu : String) (tok : Token)
    (usersResult : Option (List UserRec)) (probeOk : Bool) :
    (∀ m u s, JsAction.request m u (some s) ∈
        loginFlowActions fu (some tok) usersResult probeOk →
      m = "GET" ∧ u = "/api/protected" ∧ s = "Bearer " ++ tok.authToken) ∧
    (∀ s, JsAction.request "GET" "/api/users/" s ∈
        loginFlowActions fu (some tok) usersResult probeOk → s = none) := by
  constructor
  · intro m u s hmem
    cases usersResult with
    | none => simp [loginFlowActions] at hmem
    | some users =>
      have hloop : JsAction.request m u (some s) ∈
          loginUsersLoop fu tok probeOk users := by
        simpa [loginFlowActions] using hmem
      rcases probeActions_mem tok probeOk _
          (loginUsersLoop_mem fu tok probeOk users _ hloop)
        with h1 | ⟨_, h1⟩ | ⟨_, h1⟩
      · simp at h1
        exact ⟨h1.1, h1.2.1, h1.2.2⟩
      · simp at h1
      · simp at h1
  · intro s hmem
    cases usersResult with
    | none =>
      simp [loginFlowActions] at hmem
      exact hmem
    | some users =>
      have hcase : s = none ∨ JsAction.request "GET" "/api/users/" s ∈
          loginUsersLoop fu tok probeOk users := by
        simpa [loginFlowActions] using hmem
      rcases hcase with h | h
      · exact h
      · rcases probeActions_mem tok probeOk _
            (loginUsersLoop_mem fu tok probeOk users _ h)
          with h1 | ⟨_, h1⟩ | ⟨_, h1⟩ <;> simp at h1

theorem C1_token_only_on_probe_witness :
    (JsAction.request "GET" "/api/protected" (some ("Bearer " ++ "abc")) ∈
      loginFlowActions "t" (some (Token.mk "abc"))
        (some [UserRec.mk "u1" "t" true []]) true) ∧
    ("GET" = "GET" ∧ "/api/protected" = "/api/protected" ∧
      "Bearer " ++ "abc" = "Bearer " ++ (Token.mk "abc").authToken) ∧
    (JsAction.request "GET" "/api/users/" none ∈
      loginFlowActions "t" (some (Token.mk "abc"))
        (some [UserRec.mk "u1" "t" true []]) true) ∧
    (none : Option String) = none :=
  ⟨by decide,
    (C1_token_only_on_probe "t" (Token.mk "abc")
      (some [UserRec.mk "u1" "t" true []]) true).1 "GET" "/api/protected"
      ("Bearer " ++ "abc") (by decide),
    by decide,
    (C1_token_only_on_probe "t" (Token.mk "abc")
      (some [UserRec.mk "u1" "t" true []]) true).2 none (by decide)⟩

/-- Recognizer for cookie-modifying actions (writes or removals). -/
def isCookieOp : JsAction → Bool
  | .setCookie _ _ => true
  | .removeCookie _ => true
  | _ => false

theorem applyCookieActions_no_ops (l : List JsAction) (jar : CookieJar)
    (h : l.all (fun a => !isCookieOp a) = true) :
    applyCookieActions l jar = jar := by
  induction l generalizing jar with
  | nil => rfl
  | cons act tl ihl =>
    simp only [List.all_cons, Bool.and_eq_true] at h
    cases act with
    | setCookie n v => simp [isCookieOp] at h
    | removeCookie n => simp [isCookieOp] at h
    | request m u s => exact ihl jar h.2
    | navigate u => exact ihl jar h.2
    | consoleLog m => exact ihl jar h.2
    | setHtml s v => exact ihl jar h.2
    | hideElem s => exact ihl jar h.2
    | showElem s => exact ihl jar h.2

theorem loginUsersLoop_no_cookie_ops (fu : String) (tok : Token)
    (probeOk : Bool) (users : List UserRec) :
    (loginUsersLoop fu tok probeOk users).all (fun a => !isCookieOp a) = true := by
  rw [List.all_eq_true]
  intro a ha
  rcases probeActions_mem tok probeOk a (loginUsersLoop_mem fu tok probeOk users a ha)
    with h | ⟨_, h⟩ | ⟨_, h⟩ <;> simp [h, isCookieOp]

/-- C4 counterexample: in a login flow whose `/api/protected` probe FAILS
(token verification failure), the flow performs no cookie removal and the
`APP_TOKEN` cookie still holds the serialized token afterwards -- the
persisted token is not discarded, contradicting the claim that no stale
token remains persisted after a verification failure. -/
theorem C4_stale_token_persists :
    applyCookieActions (loginFlowActions "t" (some (Token.mk "abc"))
        (some [UserRec.mk "u1" "t" true []]) false) [] =
      [("APP_TOKEN", "\x7b\"authToken\":\"abc\"\x7d")] ∧
    (loginFlowActions "t" (some (Token.mk "abc"))
        (some [UserRec.mk "u1" "t" true []]) false).all
      (fun a => !isRemoveCookie a) = true := by
  constructor
  · decide
  · decide

/-- C4 amended: the client never discards the persisted token cookie: the
code contains no logout handler and performs no cookie removal anywhere in
the login flow, and after a successful login -- even when the verification
probe fails -- the `APP_TOKEN` cookie still holds the serialized token and
the in-memory session keeps it. -/
theorem C4_token_never_discarded (fu : String) (loginResult : Option Token)
    (usersResult : Option (List UserRec)) (probeOk : Bool) (jar : CookieJar)
    (app : AppState) :
    ((loginFlowActions fu loginResult usersResult probeOk).all
      (fun a => !isRemoveCookie a) = true) ∧
    (∀ tok, loginResult = some tok →
      cookiesGet (applyCookieActions
          (loginFlowActions fu loginResult usersResult probeOk) jar)
        "APP_TOKEN" = some (JSONStringify (tokenToJson tok)) ∧
      loginFlowToken app loginResult =
        { app with JWT_TOKEN := tokenToJson tok }) := by
  constructor
  · cases loginResult with
    | none => cases usersResult <;> simp [loginFlowActions, isRemoveCookie]
    | some tok =>
      cases usersResult with
      | none => simp [loginFlowActions, isRemoveCookie]
      | some users =>
        simp only [loginFlowActions, List.all_cons, Bool.and_eq_true]
        refine ⟨by simp [isRemoveCookie], by simp [isRemoveCookie],
          by simp [isRemoveCookie], by simp [isRemoveCookie], ?_⟩
        have h := loginUsersLoop_no_cookie_ops fu tok probeOk users
        rw [List.all_eq_true] at h ⊢
        intro a ha
        have := h a ha
        cases a <;> simp_all [isCookieOp, isRemoveCookie]
  · intro tok hEq
    subst hEq
    constructor
    · cases usersResult with
      | none =>
        show cookiesGet (applyCookieActions
          (JsAction.request "POST" "/api/auth/login" none ::
            JsAction.setCookie "APP_TOKEN" (JSONStringify (tokenToJson tok)) ::
            JsAction.consoleLog "token" ::
            JsAction.request "GET" "/api/users/" none ::
            [JsAction.consoleLog "error"]) jar) "APP_TOKEN" = _
        show cookiesGet (applyCookieActions [JsAction.consoleLog "error"]
          (cookiesSet jar "APP_TOKEN" (JSONStringify (tokenToJson tok))))
          "APP_TOKEN" = _
        rw [applyCookieActions_no_ops _ _ (by decide)]
        exact cookiesGet_cookiesSet jar "APP_TOKEN" (JSONStringify (tokenToJson tok))
      | some users =>
        show cookiesGet (applyCookieActions
          (loginUsersLoop fu tok probeOk users)
          (cookiesSet jar "APP_TOKEN" (JSONStringify (tokenToJson tok))))
          "APP_TOKEN" = _
        rw [applyCookieActions_no_ops _ _
          (loginUsersLoop_no_cookie_ops fu tok probeOk users)]
        exact cookiesGet_cookiesSet jar "APP_TOKEN" (JSONStringify (tokenToJson tok))
    · rfl

theorem C4_token_never_discarded_witness :
    (some (Token.mk "abc") = some (Token.mk "abc")) ∧
    (cookiesGet (applyCookieActions
        (loginFlowActions "t" (some (Token.mk "abc"))
          (some [UserRec.mk "u1" "t" true []]) false) [])
      "APP_TOKEN" = some (JSONStringify (tokenToJson (Token.mk "abc"))) ∧
    loginFlowToken ⟨Json.null, []⟩ (some (Token.mk "abc")) =
      ⟨tokenToJson (Token.mk "abc"), []⟩) :=
  ⟨rfl,
    (C4_token_never_discarded "t" (some (Token.mk "abc"))
      (some [UserRec.mk "u1" "t" true []]) false [] ⟨Json.null, []⟩).2
      (Token.mk "abc") rfl⟩

/-- C2 counterexample: on a page load with a well-formed token cookie
present, the client restores the token into the session but the page-load
trace consists of console logs only -- no read request is issued to
revalidate the token's role, contradicting the claim that a revalidating
read request precedes any view selection. -/
theorem C2_pageload_issues_no_revalidation :
    indexPageLoad ⟨Json.obj JsonFields.nil, []⟩
        [("APP_TOKEN", "\x7b\"authToken\":\"abc\"\x7d")] =
      (JsOutcome.ok ⟨Json.obj (JsonFields.cons "authToken" (Json.str "abc")
          JsonFields.nil), []⟩,
       [JsAction.consoleLog "APP STARTS",
        JsAction.consoleLog "LOGIN RESTORED, APP IS NOW"]) := rfl

/-- C2 amended: on page load the client only runs `restoreLoginToken` on
the cookie and logs; the page-load trace contains console logs only (in
particular no read request and no navigation), so no revalidation and no
view selection happen on page load -- role checking happens only in the
login flow's probe. -/
theorem C2_pageload_only_restores (app : AppState) (jar : CookieJar) :
    ((indexPageLoad app jar).2.all isConsoleLog = true) ∧
    (indexPageLoad app jar).1 = restoreLoginToken app jar := by
  refine ⟨?_, rfl⟩
  unfold indexPageLoad
  cases h : cookiesGet jar "APP_TOKEN" with
  | none => simp [isConsoleLog]
  | some s =>
    by_cases hs : s = ""
    · simp [hs, isConsoleLog]
    · cases hp : JSONParse s with
      | none => simp [hs, hp, isConsoleLog]
      | some j => simp [hs, hp, isConsoleLog]

/-- C6 counterexample: a rejected login (for example 401 InvalidCredentials)
produces no action beyond the request itself -- the login `$.ajax` call in
index.js installs no error handler, so no inline message and no generic
notice is displayed, contradicting the claim that Unauthenticated failures
are surfaced inline. -/
theorem C6_login_error_displays_nothing :
    loginFlowActions "t" none (some []) true =
      [JsAction.request "POST" "/api/auth/login" none] := rfl

/-- C6 amended: sign-up failures of any kind are displayed inline near the
username or password field according to the error's `location`; a rejected
login displays nothing at all (no error handler); the add-item failure
handler performs no display action (console log only). -/
theorem C6_error_display_behavior (err : ErrResponse) (fu : String)
    (usersResult : Option (List UserRec)) (probeOk : Bool) :
    (err.location = "username" →
      signUpErrorActions err =
        [JsAction.setHtml ".js-errorsUser" ("Username " ++ err.message ++ "!"),
         JsAction.setHtml ".js-errorsPass" ("Password " ++ err.message ++ "!"),
         JsAction.hideElem ".js-errorsPass",
         JsAction.showElem ".js-errorsUser"]) ∧
    (err.location = "password" →
      signUpErrorActions err =
        [JsAction.setHtml ".js-errorsUser" ("Username " ++ err.message ++ "!"),
         JsAction.setHtml ".js-errorsPass" ("Password " ++ err.message ++ "!"),
         JsAction.hideElem ".js-errorsUser",
         JsAction.showElem ".js-errorsPass"]) ∧
    (loginFlowActions fu none usersResult probeOk =
      [JsAction.request "POST" "/api/auth/login" none]) ∧
    (addItemErrorActions.all (fun a => !isDisplayAction a) = true) := by
  have hadd : addItemErrorActions.all (fun a => !isDisplayAction a) = true := by
    decide
  have hlogin : loginFlowActions fu none usersResult probeOk =
      [JsAction.request "POST" "/api/auth/login" none] := by
    cases usersResult <;> rfl
  exact ⟨fun h => by simp [signUpErrorActions, h],
    fun h => by simp [signUpErrorActions, h], hlogin, hadd⟩

theorem C6_error_display_behavior_witness :
    ((ErrResponse.mk "already taken" "username").location = "username") ∧
    signUpErrorActions (ErrResponse.mk "already taken" "username") =
      [JsAction.setHtml ".js-errorsUser" ("Username " ++ "already taken" ++ "!"),
       JsAction.setHtml ".js-errorsPass" ("Password " ++ "already taken" ++ "!"),
       JsAction.hideElem ".js-errorsPass",
       JsAction.showElem ".js-errorsUser"] :=
  ⟨rfl, (C6_error_display_behavior (ErrResponse.mk "already taken" "username")
    "t" none true).1 rfl⟩

/-- C7 counterexample: two successive submissions of the login form, with
no response having arrived in between, produce two outbound
`POST /api/auth/login` requests -- nothing disables resubmission while a
login is in flight. -/
theorem C7_double_submit_double_request :
    processSubmits ["login", "login"] =
      [JsAction.request "POST" "/api/auth/login" none,
       JsAction.request "POST" "/api/auth/login" none] := rfl

theorem submitSync_login_count (e : String) :
    (submitSyncActions e).countP isLoginRequest =
      if e = "login" then 1 else 0 := by
  by_cases h : e = "login"
  · subst h
    decide
  · rw [if_neg h]
    unfold submitSyncActions
    simp only [List.countP_append]
    rw [if_neg h]
    have t1 : (if e = "signup" then [JsAction.request "POST" "/api/users" none]
        else []).countP isLoginRequest = 0 := by
      split <;> decide
    have t3 : (if e = "js-assignment-list-form" then
        [JsAction.consoleLog "You clicked ADD item!",
         JsAction.request "GET" "/api/users" none]
        else []).countP isLoginRequest = 0 := by
      split <;> decide
    have t4 : (if e = "list-items" then
        [JsAction.consoleLog "You clicked LIST item!"]
        else []).countP isLoginRequest = 0 := by
      split <;> decide
    rw [t1, t3, t4]
    decide

/-- C7 amended: the submit dispatcher is stateless (its only input is the
submitted form's name), so every submission of the login form triggers one
outbound login request: over any sequence of submit events the number of
outbound `POST /api/auth/login` requests equals the number of login-form
submissions, with no suppression of resubmission. -/
theorem C7_submits_fire_independently (events : List String) :
    (processSubmits events).countP isLoginRequest =
      events.countP (fun e => e == "login") := by
  induction events with
  | nil => rfl
  | cons e rest ih =>
    show (submitSyncActions e ++ processSubmits rest).countP isLoginRequest = _
    rw [List.countP_append, submitSync_login_count, List.countP_cons, ih]
    by_cases h : e = "login"
    · simp [h]
      omega
    · simp [h]
